import Mathlib

/-!
Shallow embedding of the contact-form backend (src/contact-backend/index.js).

The backend is a single Express handler `POST /send` plus two pure helpers,
`isValidEmail` and `sanitizeInput`.  We model:

  * JavaScript values reaching the handler through the parsed JSON body as
    `JSValue` (absent object properties destructure to `undefined`);
  * JS truthiness as `truthy`;
  * the regex `/^[^\s@]+@[^\s@]+\.[^\s@]+$/` as the executable character-level
    recogniser `isValidEmail`;
  * `String.prototype.trim` and `.replace(/[<>]/g, "")` over `List Char`;
  * the handler as a pure function from the request body, the outcome of the
    external mail collaborator (`sendEmail`), and the formatted timestamp to
    the HTTP response paired with the optional message handed to the
    collaborator (`none` when `sendEmail` was never invoked).

JS numbers are modelled as integers: no claim depends on non-integral or NaN
numerics, which a shallow integer model cannot represent.
-/

/-- A JavaScript value as it can appear in a parsed JSON request body field.
Absent properties are `undefined`. Numbers are modelled as integers. -/
inductive JSValue where
  | undefined : JSValue
  | null : JSValue
  | bool : Bool → JSValue
  | num : Int → JSValue
  | str : String → JSValue
deriving DecidableEq, Repr

/-- JS truthiness of a value: `undefined`, `null`, `false`, `0` and `""` are
falsy, everything else here is truthy. -/
def truthy : JSValue → Bool
  | JSValue.undefined => false
  | JSValue.null => false
  | JSValue.bool b => b
  | JSValue.num n => n != 0
  | JSValue.str s => s != ""

/-- Whether the value is a string (`typeof input === "string"`). -/
def isStrV : JSValue → Bool
  | JSValue.str _ => true
  | _ => false

/-- JS `ToString` coercion, as applied by `RegExp.prototype.test` to a
non-string argument (restricted to the values of our model). -/
def jsToString : JSValue → String
  | JSValue.undefined => "undefined"
  | JSValue.null => "null"
  | JSValue.bool true => "true"
  | JSValue.bool false => "false"
  | JSValue.num n => toString n
  | JSValue.str s => s

/-- The character class `\s` of JS regexes, which is also exactly the set of
characters removed by `String.prototype.trim`: ASCII whitespace controls,
space, NBSP, the Unicode `Zs` spaces, the line/paragraph separators and the
ZWNBSP. -/
def jsWhitespace (c : Char) : Bool :=
  let n := c.toNat
  n == 9 || n == 10 || n == 11 || n == 12 || n == 13 || n == 32 ||
  n == 0xA0 || n == 0x1680 || (0x2000 ≤ n && n ≤ 0x200A) ||
  n == 0x2028 || n == 0x2029 || n == 0x202F || n == 0x205F || n == 0x3000 ||
  n == 0xFEFF

/-- The character class `[^\s@]` of the email regex. -/
def okChar (c : Char) : Bool := !jsWhitespace c && c != '@'

/-- Whether the list holds a character `.` that is not its last element
(`\.[^\s@]+$` needs one more character after the dot). -/
def hasDotNotLast : List Char → Bool
  | [] => false
  | c :: rest => (c == '.' && !rest.isEmpty) || hasDotNotLast rest

/-- Character-level recogniser for `/^[^\s@]+@[^\s@]+\.[^\s@]+$/`: a nonempty
run of `[^\s@]` characters, one `@`, then a nonempty `[^\s@]` run holding a
`.` that has at least one character after it. -/
def isValidEmailChars (cs : List Char) : Bool :=
  match cs.dropWhile (fun c => c != '@') with
  | [] => false
  | _ :: r =>
    !(cs.takeWhile (fun c => c != '@')).isEmpty &&
    (cs.takeWhile (fun c => c != '@')).all okChar &&
    (match r with
     | [] => false
     | d :: rt => okChar d && rt.all okChar && hasDotNotLast rt)

/-- `isValidEmail` from index.js:36-39, testing the string against the email
regex. -/
def isValidEmail (s : String) : Bool := isValidEmailChars s.data

/-- The email shape as worded by the spec: `local@domain.tld` where each of
the three parts is one or more characters that are neither whitespace nor
`@`. -/
def specEmailShape (s : String) : Prop :=
  ∃ a b c : List Char,
    s.data = a ++ '@' :: (b ++ '.' :: c) ∧
    a ≠ [] ∧ b ≠ [] ∧ c ≠ [] ∧
    (∀ x, x ∈ a ++ b ++ c → jsWhitespace x = false ∧ x ≠ '@')

/-- `String.prototype.trim` over the character list: drop JS whitespace from
both ends. -/
def jsTrimChars (cs : List Char) : List Char :=
  List.rdropWhile jsWhitespace (cs.dropWhile jsWhitespace)

/-- `.replace(/[<>]/g, "")` over the character list: drop every `<` and `>`. -/
def stripAngle (cs : List Char) : List Char :=
  cs.filter (fun c => !(c == '<' || c == '>'))

/-- `sanitizeInput` from index.js:42-45: non-strings map to `""`; strings are
trimmed and then have every `<` and `>` removed. -/
def sanitizeInput : JSValue → String
  | JSValue.str s => String.mk (stripAngle (jsTrimChars s.data))
  | _ => ""

/-- The parsed JSON body of a `POST /send` request, as destructured by the
handler; a field missing from the body is `undefined`. -/
structure RequestBody where
  name : JSValue
  email : JSValue
  phone : JSValue
  subject : JSValue
  message : JSValue
deriving DecidableEq, Repr

/-- The service configuration the handler reads: the mail account address
`process.env.EMAIL_USER`, used as the fixed recipient. -/
structure Config where
  emailUser : String
deriving DecidableEq, Repr

/-- The argument object handed to the mail collaborator `sendEmail`; `toAddr`
models its `to` property. -/
structure MailMessage where
  toAddr : String
  subject : String
  text : String
  html : String
deriving DecidableEq, Repr

/-- Outcome of awaiting the mail collaborator: the promise resolves, or it
rejects with an error whose `code` property is the given string (`none` when
the code is absent or not a string). -/
inductive MailOutcome where
  | success : MailOutcome
  | failure : Option String → MailOutcome
deriving DecidableEq, Repr

/-- The JSON response produced by the handler: HTTP status plus the
`success`/`message` payload. -/
structure Response where
  status : Nat
  success : Bool
  message : String
deriving DecidableEq, Repr

/-- Negation of the guard `!name || !email || !subject || !message`. -/
def requiredOk (b : RequestBody) : Bool :=
  truthy b.name && truthy b.email && truthy b.subject && truthy b.message

def missingMsg : String :=
  "Missing required fields: name, email, subject, and message are required."

def invalidEmailMsg : String := "Invalid email format."

def sentMsg : String := "Email sent successfully"

def authFailMsg : String := "Authentication failed. Please check email credentials."

def genericFailMsg : String := "Email sending failed. Please try again later."

def missingResp : Response := ⟨400, false, missingMsg⟩

def invalidResp : Response := ⟨400, false, invalidEmailMsg⟩

def okResp : Response := ⟨200, true, sentMsg⟩

/-- The `catch` branch of the handler: `err.code === "EAUTH"` selects the
credentials message, anything else the generic retry message. -/
def errResp (code : Option String) : Response :=
  ⟨500, false, if code = some "EAUTH" then authFailMsg else genericFailMsg⟩

/-- The plaintext body template literal of index.js:78-91, with the sanitized
fields and the formatted timestamp interpolated; an empty phone renders as
`Not provided`. -/
def renderText (n e p sub m now : String) : String :=
  "\nContact Form Submission\n\nName: " ++ n ++
  "\nEmail: " ++ e ++
  "\nPhone: " ++ (if p = "" then "Not provided" else p) ++
  "\nSubject: " ++ sub ++
  "\n\nMessage:\n" ++ m ++
  "\n\n---\nSubmitted at: " ++ now ++ "\n      "

/-- `message.replace(/\n/g, "<br>")`. -/
def nlToBr (s : String) : String :=
  String.mk (s.data.foldr
    (fun c acc => if c == '\n' then '<' :: 'b' :: 'r' :: '>' :: acc else c :: acc) [])

/-- The HTML body template literal of index.js:92-102. -/
def renderHtml (n e p sub m now : String) : String :=
  "\n        <h2>Contact Form Submission</h2>\n        <p><strong>Name:</strong> " ++ n ++
  "</p>\n        <p><strong>Email:</strong> " ++ e ++
  "</p>\n        <p><strong>Phone:</strong> " ++ (if p = "" then "Not provided" else p) ++
  "</p>\n        <p><strong>Subject:</strong> " ++ sub ++
  "</p>\n        <h3>Message:</h3>\n        <p>" ++ nlToBr m ++
  "</p>\n        <hr>\n        <p><small>Submitted at: " ++ now ++
  "</small></p>\n      "

/-- The object passed to `sendEmail` in index.js:75-103: fixed recipient from
the configuration, labelled subject, and the two rendered bodies over the
sanitized fields (phone sanitizes only when truthy, else `""`). -/
def buildMail (cfg : Config) (b : RequestBody) (now : String) : MailMessage :=
  let sName := sanitizeInput b.name
  let sEmail := sanitizeInput b.email
  let sPhone := if truthy b.phone then sanitizeInput b.phone else ""
  let sSubject := sanitizeInput b.subject
  let sMessage := sanitizeInput b.message
  { toAddr := cfg.emailUser
    subject := "Customer Form Apllication: " ++ sSubject
    text := renderText sName sEmail sPhone sSubject sMessage now
    html := renderHtml sName sEmail sPhone sSubject sMessage now }

/-- The `POST /send` handler of index.js:48-123 as a pure function: the
response paired with the message handed to the mail collaborator (`none` when
the collaborator was never invoked).  `outcome` is how the awaited
collaborator behaves if invoked, `now` the formatted submission timestamp. -/
def handleSend (cfg : Config) (b : RequestBody) (outcome : MailOutcome)
    (now : String) : Response × Option MailMessage :=
  if !(requiredOk b) then (missingResp, none)
  else if !(isValidEmail (jsToString b.email)) then (invalidResp, none)
  else
    match outcome with
    | MailOutcome.success => (okResp, some (buildMail cfg b now))
    | MailOutcome.failure code => (errResp code, some (buildMail cfg b now))

/-- Substring containment at the character-list level. -/
def strContains (p s : String) : Prop :=
  ∃ l r : List Char, s.data = l ++ p.data ++ r

/-- Example service configuration used in concrete scenarios. -/
def cfgEx : Config := ⟨"owner@site.com"⟩

/-- The request body of the spec's concrete scenario A. -/
def joBody : RequestBody :=
  ⟨JSValue.str "Jo", JSValue.str "jo@ex.com", JSValue.undefined,
   JSValue.str "Hi", JSValue.str "Hello"⟩

/-- A body whose `name` is a nonempty all-whitespace string. -/
def wsBody : RequestBody :=
  ⟨JSValue.str " ", JSValue.str "a@b.c", JSValue.undefined,
   JSValue.str "s", JSValue.str "m"⟩

/-- A body whose `email` passes the validator but is changed by the
sanitizer. -/
def c10Body : RequestBody :=
  ⟨JSValue.str "n", JSValue.str "<>@b.c", JSValue.undefined,
   JSValue.str "s", JSValue.str "m"⟩

lemma okChar_iff (c : Char) :
    okChar c = true ↔ jsWhitespace c = false ∧ c ≠ '@' := by
  simp [okChar, Bool.and_eq_true, Bool.not_eq_true', bne_iff_ne]

lemma requiredOk_false_iff (b : RequestBody) :
    requiredOk b = false ↔
      (truthy b.name = false ∨ truthy b.email = false ∨
       truthy b.subject = false ∨ truthy b.message = false) := by
  unfold requiredOk
  cases truthy b.name <;> cases truthy b.email <;>
    cases truthy b.subject <;> cases truthy b.message <;> simp

lemma hasDotNotLast_iff (xs : List Char) :
    hasDotNotLast xs = true ↔ ∃ u v : List Char, xs = u ++ '.' :: v ∧ v ≠ [] := by
  induction xs with
  | nil =>
    simp [hasDotNotLast]
  | cons c rest ih =>
    simp only [hasDotNotLast, Bool.or_eq_true, Bool.and_eq_true, ih]
    constructor
    · rintro (⟨hc, hne⟩ | ⟨u, v, huv, hv⟩)
      · refine ⟨[], rest, by simp [beq_iff_eq.mp hc], ?_⟩
        intro hnil
        rw [hnil] at hne
        simp at hne
      · exact ⟨c :: u, v, by rw [huv, List.cons_append], hv⟩
    · rintro ⟨u, v, huv, hv⟩
      cases u with
      | nil =>
        rw [List.nil_append] at huv
        injection huv with hc hrest
        left
        refine ⟨beq_iff_eq.mpr hc, ?_⟩
        rw [hrest]
        cases v with
        | nil => exact absurd rfl hv
        | cons x xs => rfl
      | cons a u' =>
        rw [List.cons_append] at huv
        injection huv with hc hrest
        right
        exact ⟨u', v, hrest, hv⟩

lemma dropWhile_head_false (p : Char → Bool) (cs : List Char) :
    ∀ y r, cs.dropWhile p = y :: r → p y = false := by
  induction cs with
  | nil =>
    intro y r h
    simp [List.dropWhile] at h
  | cons a t ih =>
    intro y r h
    rw [List.dropWhile_cons] at h
    by_cases hp : p a
    · rw [if_pos hp] at h
      exact ih y r h
    · rw [if_neg hp] at h
      injection h with h1 h2
      rw [← h1]
      exact Bool.not_eq_true _ ▸ eq_false_of_ne_true hp

lemma split_at_marker (p : Char → Bool) (y : Char) (r : List Char)
    (hy : p y = false) :
    ∀ a : List Char, (∀ x ∈ a, p x = true) →
      (a ++ y :: r).takeWhile p = a ∧ (a ++ y :: r).dropWhile p = y :: r := by
  intro a
  induction a with
  | nil =>
    intro _
    simp [List.takeWhile_cons, List.dropWhile_cons, hy]
  | cons x xs ih =>
    intro ha
    have hx : p x = true := ha x (List.mem_cons_self x xs)
    obtain ⟨h1, h2⟩ := ih (fun z hz => ha z (List.mem_cons_of_mem x hz))
    constructor
    · rw [List.cons_append, List.takeWhile_cons, if_pos hx, h1]
    · rw [List.cons_append, List.dropWhile_cons, if_pos hx, h2]

lemma rdropWhile_append_rtakeWhile_eq (p : Char → Bool) (l : List Char) :
    List.rdropWhile p l ++ List.rtakeWhile p l = l := by
  simp only [List.rdropWhile, List.rtakeWhile]
  rw [← List.reverse_append, List.takeWhile_append_dropWhile, List.reverse_reverse]

/-- C1: a request is answered with the 400 missing-fields response, and the
mail collaborator left uninvoked, exactly when one of `name`, `email`,
`subject`, `message` is falsy; in particular an absent `phone` alone never
produces this response. -/
theorem send_missing_fields_iff (cfg : Config) (b : RequestBody)
    (outcome : MailOutcome) (now : String) :
    handleSend cfg b outcome now = (missingResp, none) ↔
      (truthy b.name = false ∨ truthy b.email = false ∨
       truthy b.subject = false ∨ truthy b.message = false) := by
  rw [← requiredOk_false_iff]
  constructor
  · intro h
    by_contra hb
    have hr : requiredOk b = true := by
      revert hb
      cases requiredOk b <;> simp
    by_cases he : isValidEmail (jsToString b.email)
    · cases outcome with
      | success =>
        simp [handleSend, hr, he, okResp, missingResp] at h
      | failure code =>
        simp [handleSend, hr, he, errResp, missingResp] at h
    · have he' : isValidEmail (jsToString b.email) = false := by
        revert he
        cases isValidEmail (jsToString b.email) <;> simp
      simp [handleSend, hr, he', invalidResp, missingResp, invalidEmailMsg,
        missingMsg] at h
  · intro h
    simp [handleSend, h]

lemma validChars_iff (cs : List Char) :
    isValidEmailChars cs = true ↔
      ∃ a b c : List Char,
        cs = a ++ '@' :: (b ++ '.' :: c) ∧ a ≠ [] ∧ b ≠ [] ∧ c ≠ [] ∧
        (∀ x, x ∈ a ++ b ++ c → jsWhitespace x = false ∧ x ≠ '@') := by
  constructor
  · intro h
    unfold isValidEmailChars at h
    cases hdw : cs.dropWhile (fun c => c != '@') with
    | nil =>
      rw [hdw] at h
      simp at h
    | cons y r =>
      rw [hdw] at h
      have hy : (fun c => c != '@') y = false := dropWhile_head_false _ cs y r hdw
      have hy' : y = '@' := by simpa [bne] using hy
      cases hr' : r with
      | nil =>
        rw [hr'] at h
        simp at h
      | cons d rt =>
        rw [hr'] at h
        simp only [Bool.and_eq_true] at h
        obtain ⟨⟨hne, hall⟩, ⟨hd, hrt⟩, hdot⟩ := h
        obtain ⟨u, v, huv, hv⟩ := (hasDotNotLast_iff rt).mp hdot
        have hsplit : cs = cs.takeWhile (fun c => c != '@') ++ ('@' :: r) := by
          conv_lhs => rw [← List.takeWhile_append_dropWhile (fun c => c != '@') cs]
          rw [hdw, hy']
        refine ⟨cs.takeWhile (fun c => c != '@'), d :: u, v, ?_, ?_, by simp, hv, ?_⟩
        · conv_lhs => rw [hsplit]
          rw [hr', huv]
          simp
        · intro hnil
          rw [hnil] at hne
          simp at hne
        · intro x hx
          have hok : okChar x = true := by
            rcases List.mem_append.mp hx with hx1 | hxv
            · rcases List.mem_append.mp hx1 with hxl | hxb
              · exact List.all_eq_true.mp hall x hxl
              · rcases List.mem_cons.mp hxb with rfl | hxu
                · exact hd
                · refine List.all_eq_true.mp hrt x ?_
                  rw [huv]
                  exact List.mem_append.mpr (Or.inl hxu)
            · refine List.all_eq_true.mp hrt x ?_
              rw [huv]
              exact List.mem_append.mpr (Or.inr (List.mem_cons_of_mem _ hxv))
          exact (okChar_iff x).mp hok
  · rintro ⟨a, b, c, hcs, ha, hb, hc, hmem⟩
    have hmem' : ∀ x, x ∈ a ++ b ++ c → okChar x = true := fun x hx =>
      (okChar_iff x).mpr (hmem x hx)
    have hpa : ∀ x ∈ a, (fun c => c != '@') x = true := by
      intro x hx
      have hx2 := (hmem x (List.mem_append.mpr
        (Or.inl (List.mem_append.mpr (Or.inl hx))))).2
      simpa [bne_iff_ne] using hx2
    have hy : (fun c => c != '@') '@' = false := by simp
    obtain ⟨htw, hdw⟩ :=
      split_at_marker (fun c => c != '@') '@' (b ++ '.' :: c) hy a hpa
    subst hcs
    cases b with
    | nil => exact absurd rfl hb
    | cons b0 bt =>
      have h1 : a.isEmpty = false := by
        cases a with
        | nil => exact absurd rfl ha
        | cons q qs => rfl
      have h2 : a.all okChar = true := List.all_eq_true.mpr fun x hx =>
        hmem' x (List.mem_append.mpr (Or.inl (List.mem_append.mpr (Or.inl hx))))
      have h3 : okChar b0 = true :=
        hmem' b0 (List.mem_append.mpr
          (Or.inl (List.mem_append.mpr (Or.inr (List.mem_cons_self b0 bt)))))
      have h4 : (bt ++ '.' :: c).all okChar = true := by
        refine List.all_eq_true.mpr fun x hx => ?_
        rcases List.mem_append.mp hx with hxb | hxc
        · exact hmem' x (List.mem_append.mpr
            (Or.inl (List.mem_append.mpr (Or.inr (List.mem_cons_of_mem b0 hxb)))))
        · rcases List.mem_cons.mp hxc with rfl | hxc
          · exact (by decide : okChar '.' = true)
          · exact hmem' x (List.mem_append.mpr (Or.inr hxc))
      have h5 : hasDotNotLast (bt ++ '.' :: c) = true :=
        (hasDotNotLast_iff _).mpr ⟨bt, c, rfl, hc⟩
      unfold isValidEmailChars
      rw [hdw, htw]
      simp only [List.cons_append]
      simp [h1, h2, h3, h4, h5]

/-- C2: `isValidEmail` accepts exactly the strings of shape
`local@domain.tld` with each part one or more non-whitespace, non-`@`
characters; and a request with all required fields present whose email the
validator rejects is answered 400 with the invalid-format payload, the mail
collaborator left uninvoked. -/
theorem email_validator_spec :
    (∀ s : String, isValidEmail s = true ↔ specEmailShape s) ∧
    (∀ (cfg : Config) (b : RequestBody) (outcome : MailOutcome) (now : String),
      requiredOk b = true → isValidEmail (jsToString b.email) = false →
      handleSend cfg b outcome now = (invalidResp, none)) := by
  constructor
  · intro s
    unfold isValidEmail specEmailShape
    exact validChars_iff s.data
  · intro cfg b outcome now hr he
    simp [handleSend, hr, he]

/-- Witness for `email_validator_spec` at the spec's concrete scenario B. -/
theorem email_validator_spec_w :
    handleSend cfgEx
      ⟨JSValue.str "Jo", JSValue.str "not-an-email", JSValue.undefined,
       JSValue.str "Hi", JSValue.str "Hello"⟩
      MailOutcome.success "T" = (invalidResp, none) :=
  email_validator_spec.2 cfgEx
    ⟨JSValue.str "Jo", JSValue.str "not-an-email", JSValue.undefined,
     JSValue.str "Hi", JSValue.str "Hello"⟩
    MailOutcome.success "T" (by decide) (by decide)

/-- C5: the mail collaborator receives a message only when all four required
fields are truthy and the email passed the validator, and then the rendered
text and HTML bodies embed exactly the sanitized fields. -/
theorem send_invariant (cfg : Config) (b : RequestBody) (outcome : MailOutcome)
    (now : String) (msg : MailMessage) :
    (handleSend cfg b outcome now).2 = some msg →
    requiredOk b = true ∧ isValidEmail (jsToString b.email) = true ∧
    msg.text = renderText (sanitizeInput b.name) (sanitizeInput b.email)
      (if truthy b.phone then sanitizeInput b.phone else "")
      (sanitizeInput b.subject) (sanitizeInput b.message) now ∧
    msg.html = renderHtml (sanitizeInput b.name) (sanitizeInput b.email)
      (if truthy b.phone then sanitizeInput b.phone else "")
      (sanitizeInput b.subject) (sanitizeInput b.message) now := by
  intro h
  by_cases hr : requiredOk b
  · by_cases he : isValidEmail (jsToString b.email)
    · refine ⟨hr, he, ?_⟩
      have hmsg : msg = buildMail cfg b now := by
        cases outcome with
        | success =>
          simp [handleSend, hr, he] at h
          exact h.symm
        | failure code =>
          simp [handleSend, hr, he] at h
          exact h.symm
      rw [hmsg]
      exact ⟨rfl, rfl⟩
    · have he' : isValidEmail (jsToString b.email) = false := by
        revert he
        cases isValidEmail (jsToString b.email) <;> simp
      simp [handleSend, hr, he'] at h
  · have hr' : requiredOk b = false := by
      revert hr
      cases requiredOk b <;> simp
    simp [handleSend, hr'] at h

/-- Witness for `send_invariant` at scenario A. -/
theorem send_invariant_w :
    requiredOk joBody = true ∧
    isValidEmail (jsToString joBody.email) = true ∧
    (buildMail cfgEx joBody "T").text =
      renderText (sanitizeInput joBody.name) (sanitizeInput joBody.email)
        (if truthy joBody.phone then sanitizeInput joBody.phone else "")
        (sanitizeInput joBody.subject) (sanitizeInput joBody.message) "T" ∧
    (buildMail cfgEx joBody "T").html =
      renderHtml (sanitizeInput joBody.name) (sanitizeInput joBody.email)
        (if truthy joBody.phone then sanitizeInput joBody.phone else "")
        (sanitizeInput joBody.subject) (sanitizeInput joBody.message) "T" :=
  send_invariant cfgEx joBody MailOutcome.success "T" (buildMail cfgEx joBody "T") rfl

/-- C7: when the collaborator resolves for a validated request, the response
is 200 with `success: true` and the exact success message. -/
theorem send_success_response (cfg : Config) (b : RequestBody) (now : String)
    (hr : requiredOk b = true) (he : isValidEmail (jsToString b.email) = true) :
    handleSend cfg b MailOutcome.success now =
      (⟨200, true, "Email sent successfully"⟩, some (buildMail cfg b now)) := by
  simp [handleSend, hr, he, okResp, sentMsg]

/-- Witness for `send_success_response` at scenario A. -/
theorem send_success_response_w :
    handleSend cfgEx joBody MailOutcome.success "T" =
      (⟨200, true, "Email sent successfully"⟩, some (buildMail cfgEx joBody "T")) :=
  send_success_response cfgEx joBody "T" (by decide) (by decide)

/-- C6: when the collaborator fails for a validated request, the response is
500; the message is the credentials hint exactly when the error code is
`EAUTH` and the generic retry hint otherwise, so the caller only ever sees
one of those two fixed strings. -/
theorem send_failure_response (cfg : Config) (b : RequestBody) (now : String)
    (code : Option String)
    (hr : requiredOk b = true) (he : isValidEmail (jsToString b.email) = true) :
    handleSend cfg b (MailOutcome.failure code) now =
      (⟨500, false,
        if code = some "EAUTH" then authFailMsg else genericFailMsg⟩,
       some (buildMail cfg b now)) ∧
    ((handleSend cfg b (MailOutcome.failure code) now).1.message = authFailMsg ∨
     (handleSend cfg b (MailOutcome.failure code) now).1.message = genericFailMsg) := by
  constructor
  · simp [handleSend, hr, he, errResp]
  · by_cases hc : code = some "EAUTH"
    · left
      simp [handleSend, hr, he, errResp, hc]
    · right
      simp [handleSend, hr, he, errResp, hc]

/-- Witness for `send_failure_response` with an `EAUTH` error code. -/
theorem send_failure_response_w :
    handleSend cfgEx joBody (MailOutcome.failure (some "EAUTH")) "T" =
      (⟨500, false, authFailMsg⟩, some (buildMail cfgEx joBody "T")) := by
  have h := (send_failure_response cfgEx joBody "T" (some "EAUTH")
    (by decide) (by decide)).1
  simpa using h

lemma strContains_left (p a b : String) (h : strContains p a) :
    strContains p (a ++ b) := by
  obtain ⟨l, r, hl⟩ := h
  refine ⟨l, r ++ b.data, ?_⟩
  rw [String.data_append, hl]
  simp

lemma strContains_right (p a b : String) (h : strContains p b) :
    strContains p (a ++ b) := by
  obtain ⟨l, r, hl⟩ := h
  refine ⟨a.data ++ l, r, ?_⟩
  rw [String.data_append, hl]
  simp

lemma strContains_self (p : String) : strContains p p := ⟨[], [], by simp⟩

lemma renderText_contains_name (n e p sub m now : String) :
    strContains n (renderText n e p sub m now) := by
  unfold renderText
  repeat
    first
      | exact strContains_right n _ _ (strContains_self n)
      | apply strContains_left

/-- C8: whatever the handler passes to the mail collaborator has the
configured address as recipient and the fixed label followed by the
sanitized subject as its subject line; at scenario A the collaborator is
invoked, with a subject containing `Hi` and a text body containing `Jo`. -/
theorem mail_invocation_shape :
    (∀ (cfg : Config) (b : RequestBody) (outcome : MailOutcome) (now : String)
      (msg : MailMessage), (handleSend cfg b outcome now).2 = some msg →
      msg.toAddr = cfg.emailUser ∧
      msg.subject = "Customer Form Apllication: " ++ sanitizeInput b.subject) ∧
    (∀ (cfg : Config) (outcome : MailOutcome) (now : String),
      (handleSend cfg joBody outcome now).2 = some (buildMail cfg joBody now) ∧
      (buildMail cfg joBody now).toAddr = cfg.emailUser ∧
      strContains "Hi" (buildMail cfg joBody now).subject ∧
      strContains "Jo" (buildMail cfg joBody now).text) := by
  constructor
  · intro cfg b outcome now msg h
    by_cases hr : requiredOk b
    · by_cases he : isValidEmail (jsToString b.email)
      · have hmsg : msg = buildMail cfg b now := by
          cases outcome with
          | success =>
            simp [handleSend, hr, he] at h
            exact h.symm
          | failure code =>
            simp [handleSend, hr, he] at h
            exact h.symm
        rw [hmsg]
        exact ⟨rfl, rfl⟩
      · have he' : isValidEmail (jsToString b.email) = false := by
          revert he
          cases isValidEmail (jsToString b.email) <;> simp
        simp [handleSend, hr, he'] at h
    · have hr' : requiredOk b = false := by
        revert hr
        cases requiredOk b <;> simp
      simp [handleSend, hr'] at h
  · intro cfg outcome now
    have hreq : requiredOk joBody = true := by decide
    have hval : isValidEmail (jsToString joBody.email) = true := by decide
    refine ⟨?_, rfl, ?_, ?_⟩
    · cases outcome with
      | success => simp [handleSend, hreq, hval]
      | failure code => simp [handleSend, hreq, hval]
    · have hsan : sanitizeInput joBody.subject = "Hi" := by decide
      have hsub : (buildMail cfg joBody now).subject =
          "Customer Form Apllication: " ++ "Hi" := by
        show "Customer Form Apllication: " ++ sanitizeInput joBody.subject = _
        rw [hsan]
      rw [hsub]
      exact strContains_right _ _ _ (strContains_self "Hi")
    · have h1 : sanitizeInput joBody.name = "Jo" := by decide
      have h2 := renderText_contains_name (sanitizeInput joBody.name)
        (sanitizeInput joBody.email)
        (if truthy joBody.phone then sanitizeInput joBody.phone else "")
        (sanitizeInput joBody.subject) (sanitizeInput joBody.message) now
      rw [h1] at h2
      exact h2

/-- Witness for `mail_invocation_shape` at a concrete configuration. -/
theorem mail_invocation_shape_w :
    (buildMail cfgEx joBody "T").toAddr = cfgEx.emailUser ∧
    (buildMail cfgEx joBody "T").subject =
      "Customer Form Apllication: " ++ sanitizeInput joBody.subject :=
  mail_invocation_shape.1 cfgEx joBody MailOutcome.success "T"
    (buildMail cfgEx joBody "T") rfl

lemma jsTrimChars_decomp (cs : List Char) :
    ∃ p q : List Char, cs = p ++ jsTrimChars cs ++ q ∧
      (∀ c ∈ p, jsWhitespace c = true) ∧ (∀ c ∈ q, jsWhitespace c = true) := by
  refine ⟨cs.takeWhile jsWhitespace,
    List.rtakeWhile jsWhitespace (cs.dropWhile jsWhitespace), ?_, ?_, ?_⟩
  · unfold jsTrimChars
    conv_lhs => rw [← List.takeWhile_append_dropWhile jsWhitespace cs]
    rw [List.append_assoc, rdropWhile_append_rtakeWhile_eq]
  · exact fun c hc => List.mem_takeWhile_imp hc
  · exact fun c hc => List.mem_rtakeWhile_imp hc

lemma jsTrimChars_sublist (cs : List Char) : (jsTrimChars cs).Sublist cs :=
  ((List.rdropWhile_prefix jsWhitespace (cs.dropWhile jsWhitespace)).sublist).trans
    ((List.dropWhile_suffix jsWhitespace).sublist)

/-- C3: non-string inputs sanitize to the empty string; a string input is
split as whitespace prefix, trimmed core, whitespace suffix, and the
sanitized output is exactly the trimmed core with every `<` and `>` filtered
out — in particular it is a subsequence of the input holding neither `<` nor
`>`. -/
theorem sanitizer_spec :
    (∀ v : JSValue, isStrV v = false → sanitizeInput v = "") ∧
    (∀ s : String, ∃ p q : List Char,
      s.data = p ++ jsTrimChars s.data ++ q ∧
      (∀ c ∈ p, jsWhitespace c = true) ∧ (∀ c ∈ q, jsWhitespace c = true)) ∧
    (∀ s : String, (sanitizeInput (JSValue.str s)).data =
      (jsTrimChars s.data).filter (fun c => !(c == '<' || c == '>'))) ∧
    (∀ s : String, (sanitizeInput (JSValue.str s)).data.Sublist s.data) ∧
    (∀ s : String, ∀ c ∈ (sanitizeInput (JSValue.str s)).data,
      c ≠ '<' ∧ c ≠ '>') := by
  refine ⟨?_, fun s => jsTrimChars_decomp s.data, fun s => rfl, ?_, ?_⟩
  · intro v h
    cases v with
    | undefined => rfl
    | null => rfl
    | bool b => rfl
    | num n => rfl
    | str s => simp [isStrV] at h
  · intro s
    exact (List.filter_sublist _).trans (jsTrimChars_sublist s.data)
  · intro s c hc
    have hmem := List.mem_filter.mp hc
    have hp := hmem.2
    constructor
    · intro hlt
      rw [hlt] at hp
      simp at hp
    · intro hgt
      rw [hgt] at hp
      simp at hp

/-- Witness for `sanitizer_spec`: a non-string value sanitizes to `""`. -/
theorem sanitizer_spec_w : sanitizeInput JSValue.null = "" :=
  sanitizer_spec.1 JSValue.null rfl

/-- C4 counterexample: sanitizing `"< a >"` yields `" a "`, and sanitizing
again yields `"a"`, so the sanitizer is not idempotent on all inputs. -/
theorem sanitize_not_idempotent :
    sanitizeInput (JSValue.str (sanitizeInput (JSValue.str "< a >"))) ≠
      sanitizeInput (JSValue.str "< a >") := by decide

lemma stripAngle_eq_self {cs : List Char} (h : ∀ c ∈ cs, c ≠ '<' ∧ c ≠ '>') :
    stripAngle cs = cs := by
  refine List.filter_eq_self.mpr fun c hc => ?_
  obtain ⟨h1, h2⟩ := h c hc
  simp [h1, h2]

lemma sanitize_no_angle (v : JSValue) :
    ∀ c ∈ (sanitizeInput v).data, c ≠ '<' ∧ c ≠ '>' := by
  cases v with
  | str s =>
    intro c hc
    have hp := (List.mem_filter.mp hc).2
    constructor <;> intro h <;> rw [h] at hp <;> simp at hp
  | undefined => intro c hc; simp [sanitizeInput] at hc
  | null => intro c hc; simp [sanitizeInput] at hc
  | bool b => intro c hc; simp [sanitizeInput] at hc
  | num n => intro c hc; simp [sanitizeInput] at hc

lemma dropWhile_jsTrim_self (cs : List Char) :
    List.dropWhile jsWhitespace (jsTrimChars cs) = jsTrimChars cs := by
  have hpre : List.rdropWhile jsWhitespace (List.dropWhile jsWhitespace cs) <+:
      List.dropWhile jsWhitespace cs :=
    List.rdropWhile_prefix jsWhitespace (List.dropWhile jsWhitespace cs)
  unfold jsTrimChars
  cases hT : List.rdropWhile jsWhitespace (List.dropWhile jsWhitespace cs) with
  | nil => rfl
  | cons t ts =>
    rw [hT] at hpre
    obtain ⟨k, hk⟩ := hpre
    have hcs : List.dropWhile jsWhitespace cs = t :: (ts ++ k) := by
      rw [← hk, List.cons_append]
    have hhead : jsWhitespace t = false :=
      dropWhile_head_false jsWhitespace cs t (ts ++ k) hcs
    rw [List.dropWhile_cons]
    simp [hhead]

lemma jsTrimChars_idem (cs : List Char) :
    jsTrimChars (jsTrimChars cs) = jsTrimChars cs := by
  conv_lhs => rw [jsTrimChars]
  rw [dropWhile_jsTrim_self]
  show List.rdropWhile jsWhitespace
    (List.rdropWhile jsWhitespace (List.dropWhile jsWhitespace cs)) = jsTrimChars cs
  rw [List.rdropWhile_idempotent]
  rfl

/-- C4 amended: the sanitizer is idempotent on every string containing no `<`
and no `>` (and on every value it has already been applied to at least once,
two applications being a fixed point), though not on arbitrary strings. -/
theorem sanitize_idempotent_amended :
    (∀ s : String, (∀ c ∈ s.data, c ≠ '<' ∧ c ≠ '>') →
      sanitizeInput (JSValue.str (sanitizeInput (JSValue.str s))) =
        sanitizeInput (JSValue.str s)) ∧
    (∀ v : JSValue,
      sanitizeInput (JSValue.str (sanitizeInput (JSValue.str (sanitizeInput v)))) =
        sanitizeInput (JSValue.str (sanitizeInput v))) := by
  have key : ∀ s : String, (∀ c ∈ s.data, c ≠ '<' ∧ c ≠ '>') →
      sanitizeInput (JSValue.str (sanitizeInput (JSValue.str s))) =
        sanitizeInput (JSValue.str s) := by
    intro s hs
    have htrim_no : ∀ c ∈ jsTrimChars s.data, c ≠ '<' ∧ c ≠ '>' :=
      fun c hc => hs c ((jsTrimChars_sublist s.data).subset hc)
    have h1 : stripAngle (jsTrimChars s.data) = jsTrimChars s.data :=
      stripAngle_eq_self htrim_no
    have hdata : (sanitizeInput (JSValue.str s)).data = jsTrimChars s.data := h1
    have houter : sanitizeInput (JSValue.str (sanitizeInput (JSValue.str s))) =
        String.mk (stripAngle (jsTrimChars (jsTrimChars s.data))) := by
      show String.mk (stripAngle (jsTrimChars (sanitizeInput (JSValue.str s)).data)) = _
      rw [hdata]
    rw [houter, jsTrimChars_idem]
    rfl
  exact ⟨key, fun v => key (sanitizeInput v) (sanitize_no_angle v)⟩

/-- Witness for `sanitize_idempotent_amended` on an angle-free string. -/
theorem sanitize_idempotent_amended_w :
    sanitizeInput (JSValue.str (sanitizeInput (JSValue.str " ab "))) =
      sanitizeInput (JSValue.str " ab ") :=
  sanitize_idempotent_amended.1 " ab " (by decide)

/-- C9: a required field that is a nonempty all-whitespace string is truthy,
so it passes the required-field check, and it sanitizes to the empty string;
with `name = " "` the email is sent and its text body embeds the empty
name. -/
theorem whitespace_field_passes :
    (∀ s : String, s ≠ "" → (∀ c ∈ s.data, jsWhitespace c = true) →
      truthy (JSValue.str s) = true ∧ sanitizeInput (JSValue.str s) = "") ∧
    (∀ (cfg : Config) (now : String),
      handleSend cfg wsBody MailOutcome.success now =
        (okResp, some (buildMail cfg wsBody now)) ∧
      (buildMail cfg wsBody now).text = renderText "" "a@b.c" "" "s" "m" now) := by
  constructor
  · intro s hne hws
    constructor
    · show (s != "") = true
      simpa [bne_iff_ne] using hne
    · have h1 : s.data.dropWhile jsWhitespace = [] :=
        List.dropWhile_eq_nil_iff.mpr fun x hx => hws x hx
      show String.mk (stripAngle (jsTrimChars s.data)) = ""
      rw [jsTrimChars, h1, List.rdropWhile_nil]
      rfl
  · intro cfg now
    have hreq : requiredOk wsBody = true := by decide
    have hval : isValidEmail (jsToString wsBody.email) = true := by decide
    constructor
    · simp [handleSend, hreq, hval]
    · show renderText (sanitizeInput wsBody.name) (sanitizeInput wsBody.email)
        (if truthy wsBody.phone then sanitizeInput wsBody.phone else "")
        (sanitizeInput wsBody.subject) (sanitizeInput wsBody.message) now = _
      rw [show sanitizeInput wsBody.name = "" from by decide,
        show sanitizeInput wsBody.email = "a@b.c" from by decide,
        show sanitizeInput wsBody.subject = "s" from by decide,
        show sanitizeInput wsBody.message = "m" from by decide,
        show (if truthy wsBody.phone then sanitizeInput wsBody.phone else "") = ""
          from by decide]

/-- Witness for `whitespace_field_passes` at `" "`. -/
theorem whitespace_field_passes_w :
    truthy (JSValue.str " ") = true ∧ sanitizeInput (JSValue.str " ") = "" :=
  whitespace_field_passes.1 " " (by decide) (by decide)

/-- C10: `"<>@b.c"` is accepted by the validator, yet the sanitizer changes
it to `"@b.c"`, which the validator rejects; the outgoing bodies embed the
sanitized form. -/
theorem validator_sanitizer_mismatch :
    isValidEmail "<>@b.c" = true ∧
    sanitizeInput (JSValue.str "<>@b.c") = "@b.c" ∧
    sanitizeInput (JSValue.str "<>@b.c") ≠ "<>@b.c" ∧
    isValidEmail (sanitizeInput (JSValue.str "<>@b.c")) = false ∧
    (∀ (cfg : Config) (now : String),
      (handleSend cfg c10Body MailOutcome.success now).2 =
        some (buildMail cfg c10Body now) ∧
      (buildMail cfg c10Body now).text = renderText "n" "@b.c" "" "s" "m" now) := by
  refine ⟨by decide, by decide, by decide, by decide, ?_⟩
  intro cfg now
  have hreq : requiredOk c10Body = true := by decide
  have hval : isValidEmail (jsToString c10Body.email) = true := by decide
  constructor
  · simp [handleSend, hreq, hval]
  · show renderText (sanitizeInput c10Body.name) (sanitizeInput c10Body.email)
      (if truthy c10Body.phone then sanitizeInput c10Body.phone else "")
      (sanitizeInput c10Body.subject) (sanitizeInput c10Body.message) now = _
    rw [show sanitizeInput c10Body.name = "n" from by decide,
      show sanitizeInput c10Body.email = "@b.c" from by decide,
      show sanitizeInput c10Body.subject = "s" from by decide,
      show sanitizeInput c10Body.message = "m" from by decide,
      show (if truthy c10Body.phone then sanitizeInput c10Body.phone else "") = ""
        from by decide]
